import Mathlib

/- Verification development for the local persistence layer (localstorage.py):
   the checksum store, perceptual-hash store and location store of class Db,
   their JSON text persistence, SHA-256 file checksumming, and the backup
   routine.  Python dictionaries are embedded as association lists with
   Python's insertion-order semantics; Python floats are embedded as rational
   numbers, with the location distance computation carried out over the real
   numbers. -/

/-- Lookup of a key in an association list, embedding Python's dict
membership and indexing (dicts hold at most one entry per key). -/
def lookupKey {α : Type} : List (String × α) → String → Option α
  | [], _ => none
  | p :: rest, key => if p.1 = key then some p.2 else lookupKey rest key

/-- Assignment d[key] = value on a Python dict: an existing key keeps its
position and gets the new value, a fresh key is appended at the end. -/
def dictInsert {α : Type} (d : List (String × α)) (key : String) (value : α) :
    List (String × α) :=
  if (lookupKey d key).isSome then
    d.map fun p => if p.1 = key then (key, value) else p
  else d ++ [(key, value)]

/-- One record of the location database, as built by Db.add_location:
a dict with keys lat, long and name.  Rational numbers stand in for
Python floats. -/
structure LocRecord where
  lat : ℚ
  long : ℚ
  name : String
  deriving DecidableEq, Repr

/-- An opaque perceptual-hash value (an imagehash object in the source);
only stored and retrieved by this module, never inspected. -/
structure PHash where
  bits : List Bool
  deriving DecidableEq, Repr

/-- The in-memory state of class Db: the checksum map hash_db, the location
list location_db, and the perceptual-hash map phash_db. -/
structure Db where
  hash_db : List (String × String)
  location_db : List LocRecord
  phash_db : List (String × PHash)
  deriving DecidableEq, Repr

/-- Content of the phash backing file.  The file holds a pickle
serialization, which this development treats as an abstract codec (the
spec guarantees it round-trips the mapping exactly): the file is either
empty, a valid serialization of a mapping, or malformed bytes that
pickle.load rejects. -/
inductive PhashContent where
  | empty : PhashContent
  | valid : List (String × PHash) → PhashContent
  | malformed : PhashContent
  deriving DecidableEq, Repr

/-- Contents of the three backing files in the application directory.
A file that does not exist is created empty by Db.__init__, so missing
files are represented by empty content. -/
structure FileState where
  hash_file : String
  loc_file : String
  phash_file : PhashContent
  deriving DecidableEq, Repr

/-- A Db instance together with its backing files. -/
structure State where
  db : Db
  files : FileState
  deriving DecidableEq, Repr

/-- Db.check_hash: key in self.hash_db. -/
def Db.check_hash (db : Db) (key : String) : Bool :=
  (lookupKey db.hash_db key).isSome

/-- Db.check_phash: key in self.phash_db. -/
def Db.check_phash (db : Db) (key : String) : Bool :=
  (lookupKey db.phash_db key).isSome

/-- Db.get_hash: the stored value when check_hash succeeds, otherwise None. -/
def Db.get_hash (db : Db) (key : String) : Option String :=
  if db.check_hash key then lookupKey db.hash_db key else none

/-- Db.get_phash: the stored value when check_phash succeeds, otherwise None. -/
def Db.get_phash (db : Db) (key : String) : Option PHash :=
  if db.check_phash key then lookupKey db.phash_db key else none

/-- Db.all: generator over the (checksum, path) pairs of hash_db, in
insertion order. -/
def Db.all (db : Db) : List (String × String) :=
  db.hash_db

/-- Db.get_location_coordinates: the (lat, long) pair of the first record
whose name equals the query, None when no record matches. -/
def Db.get_location_coordinates (db : Db) (name : String) : Option (ℚ × ℚ) :=
  findCoords db.location_db name
where
  findCoords : List LocRecord → String → Option (ℚ × ℚ)
    | [], _ => none
    | r :: rest, n => if r.name = n then some (r.lat, r.long) else findCoords rest n

/-- The equirectangular-approximation distance computed inside
Db.get_location_name for one record: coordinates are converted to radians,
x = (lon2 - lon1) * cos(0.5 * (lat2 + lat1)), y = lat2 - lat1, and the
distance is 6371000 * sqrt(x * x + y * y) meters. -/
noncomputable def equiDist (latitude longitude : ℚ) (data : LocRecord) : ℝ :=
  let lon1 : ℝ := (longitude : ℝ) * Real.pi / 180
  let lat1 : ℝ := (latitude : ℝ) * Real.pi / 180
  let lon2 : ℝ := (data.long : ℝ) * Real.pi / 180
  let lat2 : ℝ := (data.lat : ℝ) * Real.pi / 180
  let x : ℝ := (lon2 - lon1) * Real.cos (0.5 * (lat2 + lat1))
  let y : ℝ := lat2 - lat1
  6371000 * Real.sqrt (x * x + y * y)

section
open Classical

/-- One iteration of the loop in Db.get_location_name.  The accumulator
carries (last_d, name); the condition compares the candidate distance to
the threshold and to last_d, and last_d is then set to the candidate
distance unconditionally. -/
noncomputable def locStep (latitude longitude threshold_m : ℚ)
    (acc : ℝ × Option String) (data : LocRecord) : ℝ × Option String :=
  let d := equiDist latitude longitude data
  (d, if d ≤ (threshold_m : ℝ) ∧ d < acc.1 then some data.name else acc.2)

/-- Db.get_location_name: linear scan over location_db with last_d
initialized to sys.maxsize, returning the final name. -/
noncomputable def Db.get_location_name (db : Db) (latitude longitude threshold_m : ℚ) :
    Option String :=
  (db.location_db.foldl (locStep latitude longitude threshold_m)
    (((2 : ℝ) ^ 63 - 1), none)).2

end

/-- Lowercase hexadecimal digit for a value below 16, as produced both by
Python's json module for backslash-u escapes and by hexdigest: code 48
upward for the decimal digits, code 97 upward for the letters. -/
def hexDig (n : Nat) : Char :=
  if n < 10 then Char.ofNat (48 + n) else Char.ofNat (87 + n)

/-- Value of a hexadecimal digit character, both letter cases accepted:
codes 48 to 57 are the decimal digits, 97 to 102 the lowercase letters,
65 to 70 the uppercase letters. -/
def hexVal (c : Char) : Option Nat :=
  if 48 ≤ c.toNat ∧ c.toNat ≤ 57 then some (c.toNat - 48)
  else if 97 ≤ c.toNat ∧ c.toNat ≤ 102 then some (c.toNat - 87)
  else if 65 ≤ c.toNat ∧ c.toNat ≤ 70 then some (c.toNat - 55)
  else none

/-- A backslash-u escape sequence for a code unit below 65536. -/
def uEsc (n : Nat) : List Char :=
  ['\\', 'u', hexDig (n / 4096 % 16), hexDig (n / 256 % 16),
   hexDig (n / 16 % 16), hexDig (n % 16)]

/-- Escaping of one character by json.dump with its default ensure_ascii:
quote and backslash get two-character escapes, the common control
characters get their short escapes, every other character outside the
printable ASCII range 32..126 becomes a backslash-u escape, with
characters beyond 65535 encoded as a surrogate pair. -/
def escapeChar (c : Char) : List Char :=
  if c = '"' then ['\\', '"']
  else if c = '\\' then ['\\', '\\']
  else if c = '\n' then ['\\', 'n']
  else if c = '\r' then ['\\', 'r']
  else if c = '\t' then ['\\', 't']
  else if c.toNat = 8 then ['\\', 'b']
  else if c.toNat = 12 then ['\\', 'f']
  else if c.toNat < 32 then uEsc c.toNat
  else if c.toNat < 127 then [c]
  else if c.toNat < 65536 then uEsc c.toNat
  else uEsc (55296 + (c.toNat - 65536) / 1024) ++ uEsc (56320 + (c.toNat - 65536) % 1024)

/-- Escaping of a whole character sequence. -/
def escapeChars (l : List Char) : List Char :=
  (l.map escapeChar).flatten

/-- A JSON string literal for s, as written by json.dump. -/
def quoteStr (s : String) : List Char :=
  '"' :: (escapeChars s.data ++ ['"'])

/-- Whitespace characters accepted between JSON tokens. -/
def isWs (c : Char) : Bool :=
  c == ' ' || c == '\t' || c == '\n' || c == '\r'

/-- Dropping of leading whitespace. -/
def skipWs : List Char → List Char
  | [] => []
  | c :: rest => if isWs c then skipWs rest else c :: rest

/-- Value of four hexadecimal digit characters. -/
def hex4 (a b c d : Char) : Option Nat :=
  match hexVal a, hexVal b, hexVal c, hexVal d with
  | some x, some y, some z, some w => some (((x * 16 + y) * 16 + z) * 16 + w)
  | _, _, _, _ => none

/-- The single-character escapes accepted after a backslash in a JSON
string literal. -/
def unescapeSimple : Char → Option Char
  | 'b' => some (Char.ofNat 8)
  | 'f' => some (Char.ofNat 12)
  | 'n' => some '\n'
  | 'r' => some '\r'
  | 't' => some '\t'
  | '/' => some '/'
  | '"' => some '"'
  | '\\' => some '\\'
  | _ => none

/-- Continuation after a backslash-u escape in the high surrogate range:
the next characters must be a backslash-u escape in the low surrogate
range, and the pair is recombined into one code point. -/
def parseLowSur (hi : Nat) : List Char → Option (Char × List Char)
  | '\\' :: 'u' :: a :: b :: c :: d :: rest =>
    match hex4 a b c d with
    | some m =>
      if 56320 ≤ m ∧ m < 57344 then
        some (Char.ofNat (65536 + (hi - 55296) * 1024 + (m - 56320)), rest)
      else none
    | none => none
  | _ => none

/-- Body of a JSON string literal, after the opening quote: decodes
characters up to the closing quote and returns the decoded characters
together with the unconsumed input.  A backslash-u escape in the high
surrogate range must be followed by one in the low surrogate range and
the pair is recombined; a bare control character is rejected, as
json.load in its default strict mode does.  The fuel argument bounds the
number of decoded characters; each decoded character consumes at least
one input character, so an input-length fuel always suffices. -/
def parseStrBody : Nat → List Char → Option (List Char × List Char)
  | 0, _ => none
  | _ + 1, [] => none
  | _ + 1, '"' :: rest => some ([], rest)
  | f + 1, '\\' :: 'u' :: a :: b :: c :: d :: rest =>
    match hex4 a b c d with
    | none => none
    | some n =>
      if 55296 ≤ n ∧ n < 56320 then
        match parseLowSur n rest with
        | some (ch, rest2) =>
          match parseStrBody f rest2 with
          | some (l, r) => some (ch :: l, r)
          | none => none
        | none => none
      else if 56320 ≤ n ∧ n < 57344 then none
      else
        match parseStrBody f rest with
        | some (l, r) => some (Char.ofNat n :: l, r)
        | none => none
  | f + 1, '\\' :: e :: rest =>
    match unescapeSimple e with
    | none => none
    | some ch =>
      match parseStrBody f rest with
      | some (l, r) => some (ch :: l, r)
      | none => none
  | f + 1, ch :: rest =>
    if ch.toNat < 32 then none
    else
      match parseStrBody f rest with
      | some (l, r) => some (ch :: l, r)
      | none => none

/-- A JSON string literal: an opening quote followed by a body. -/
def parseString : List Char → Option (String × List Char)
  | '"' :: rest =>
    match parseStrBody (rest.length + 1) rest with
    | some (l, r) => some (⟨l⟩, r)
    | none => none
  | _ => none

/-- Members of a JSON object of string values, positioned at the start of
a key string; pairs are accumulated with Python dict assignment, so a
duplicate key keeps its first position and last value, as json.load
produces.  The fuel bounds the number of members; each member consumes
at least one input character. -/
def parseMembers :
    Nat → List Char → List (String × String) → Option (List (String × String) × List Char)
  | 0, _, _ => none
  | f + 1, cs, acc =>
    match parseString cs with
    | none => none
    | some (k, r1) =>
      match skipWs r1 with
      | ':' :: r2 =>
        match parseString (skipWs r2) with
        | none => none
        | some (v, r3) =>
          match skipWs r3 with
          | ',' :: r4 => parseMembers f (skipWs r4) (dictInsert acc k v)
          | '}' :: r4 => some (dictInsert acc k v, r4)
          | _ => none
      | _ => none

/-- Parsing of the hash db backing file: json.load specialized to the
document this module itself writes, a JSON object mapping strings to
strings, with no data allowed after the document. -/
def parseStrDict (s : String) : Option (List (String × String)) :=
  match skipWs s.data with
  | '{' :: r =>
    match skipWs r with
    | '}' :: r2 => if skipWs r2 = [] then some [] else none
    | r1 =>
      match parseMembers (r1.length + 1) r1 [] with
      | some (d, r2) => if skipWs r2 = [] then some d else none
      | none => none
  | _ => none

/-- The digit prefix of the input and the rest. -/
def takeDigits (cs : List Char) : List Char × List Char :=
  cs.span (fun c => c.isDigit)

/-- Numeric value of a digit sequence. -/
def digitsVal (l : List Char) : Nat :=
  l.foldl (fun a c => a * 10 + (c.toNat - 48)) 0

/-- Exponent part of a JSON number, applied to the mantissa. -/
def parseExp (q : ℚ) (cs : List Char) : Option (ℚ × List Char) :=
  let (negE, cs1) :=
    match cs with
    | '-' :: rest => (true, rest)
    | '+' :: rest => (false, rest)
    | _ => (false, cs)
  match takeDigits cs1 with
  | ([], _) => none
  | (ds, rest) =>
    let e := digitsVal ds
    some (if negE then q / (10 : ℚ) ^ e else q * (10 : ℚ) ^ e, rest)

/-- Optional exponent marker of a JSON number. -/
def parseExpPart (q : ℚ) (cs : List Char) : Option (ℚ × List Char) :=
  match cs with
  | 'e' :: rest => parseExp q rest
  | 'E' :: rest => parseExp q rest
  | _ => some (q, cs)

/-- An unsigned JSON number: integer part, optional fraction, optional
exponent, read as an exact rational. -/
def parseUNumber (cs : List Char) : Option (ℚ × List Char) :=
  match takeDigits cs with
  | ([], _) => none
  | (ds, rest) =>
    let ip : ℚ := (digitsVal ds : ℚ)
    match rest with
    | '.' :: rest2 =>
      match takeDigits rest2 with
      | ([], _) => none
      | (fs, rest3) =>
        parseExpPart (ip + (digitsVal fs : ℚ) / (10 : ℚ) ^ fs.length) rest3
    | _ => parseExpPart ip rest

/-- A JSON number with optional leading minus sign. -/
def parseNumber (cs : List Char) : Option (ℚ × List Char) :=
  match cs with
  | '-' :: rest => (parseUNumber rest).map fun p => (-p.1, p.2)
  | _ => parseUNumber cs

/-- One location record object, with the key order lat, long, name that
add_location itself establishes and json.dump preserves. -/
def parseLocObj (cs : List Char) : Option (LocRecord × List Char) :=
  match cs with
  | '{' :: r0 =>
    match parseString (skipWs r0) with
    | some (k1, r1) =>
      if k1 = "lat" then
        match skipWs r1 with
        | ':' :: r2 =>
          match parseNumber (skipWs r2) with
          | some (latv, r3) =>
            match skipWs r3 with
            | ',' :: r4 =>
              match parseString (skipWs r4) with
              | some (k2, r5) =>
                if k2 = "long" then
                  match skipWs r5 with
                  | ':' :: r6 =>
                    match parseNumber (skipWs r6) with
                    | some (lonv, r7) =>
                      match skipWs r7 with
                      | ',' :: r8 =>
                        match parseString (skipWs r8) with
                        | some (k3, r9) =>
                          if k3 = "name" then
                            match skipWs r9 with
                            | ':' :: r10 =>
                              match parseString (skipWs r10) with
                              | some (nm, r11) =>
                                match skipWs r11 with
                                | '}' :: r12 => some (⟨latv, lonv, nm⟩, r12)
                                | _ => none
                              | none => none
                            | _ => none
                          else none
                        | none => none
                      | _ => none
                    | none => none
                  | _ => none
                else none
              | none => none
            | _ => none
          | none => none
        | _ => none
      else none
    | none => none
  | _ => none

/-- Comma-separated location records up to the closing bracket. -/
def parseLocItems : Nat → List Char → Option (List LocRecord × List Char)
  | 0, _ => none
  | f + 1, cs =>
    match parseLocObj cs with
    | none => none
    | some (r, rest) =>
      match skipWs rest with
      | ',' :: r2 =>
        match parseLocItems f (skipWs r2) with
        | some (l, r3) => some (r :: l, r3)
        | none => none
      | ']' :: r2 => some ([r], r2)
      | _ => none

/-- Parsing of the location db backing file: json.load specialized to the
document this module itself writes, a JSON array of location records. -/
def parseLocArray (s : String) : Option (List LocRecord) :=
  match skipWs s.data with
  | '[' :: r =>
    match skipWs r with
    | ']' :: r2 => if skipWs r2 = [] then some [] else none
    | r1 =>
      match parseLocItems (r1.length + 1) r1 with
      | some (l, r2) => if skipWs r2 = [] then some l else none
      | none => none
  | _ => none

/-- One entry of the hash db file, rendered as json.dump does with its
default separators. -/
def renderEntry (e : String × String) : List Char :=
  quoteStr e.1 ++ ':' :: ' ' :: quoteStr e.2

/-- The comma-separated entries of the hash db file. -/
def renderEntries : List (String × String) → List Char
  | [] => []
  | [e] => renderEntry e
  | e :: e2 :: rest => renderEntry e ++ ',' :: ' ' :: renderEntries (e2 :: rest)

/-- Serialization of the hash db written by update_hash_db: json.dump of
the mapping. -/
def renderHashDb (d : List (String × String)) : String :=
  ⟨'{' :: (renderEntries d ++ ['}'])⟩

/-- Textual form of a coordinate.  Rational coordinates stand in for
Python floats, so this abstracts the float repr used by json.dump; no
theorem depends on this rendering. -/
def renderQ (q : ℚ) : List Char :=
  (toString q).data

/-- One location record rendered as json.dump does. -/
def renderLocRecord (r : LocRecord) : List Char :=
  '{' :: (quoteStr "lat" ++ ':' :: ' ' :: renderQ r.lat ++ ',' :: ' ' ::
    quoteStr "long" ++ ':' :: ' ' :: renderQ r.long ++ ',' :: ' ' ::
    quoteStr "name" ++ ':' :: ' ' :: quoteStr r.name ++ ['}'])

/-- The comma-separated records of the location db file. -/
def renderLocEntries : List LocRecord → List Char
  | [] => []
  | [r] => renderLocRecord r
  | r :: r2 :: rest => renderLocRecord r ++ ',' :: ' ' :: renderLocEntries (r2 :: rest)

/-- Serialization of the location db written by update_location_db. -/
def renderLocDb (l : List LocRecord) : String :=
  ⟨'[' :: (renderLocEntries l ++ [']'])⟩

/-- Db.__init__ reading existing backing files: the hash db and location
db loads are wrapped in a try/except that swallows the json.load failure
and keeps the empty collection, while the phash file, when not empty, is
passed to pickle.load with no handler, so a malformed phash file
propagates an exception out of construction. -/
def dbInit (f : FileState) : Except Unit State :=
  let h := (parseStrDict f.hash_file).getD []
  let l := (parseLocArray f.loc_file).getD []
  match f.phash_file with
  | .empty => .ok ⟨⟨h, l, []⟩, f⟩
  | .valid m => .ok ⟨⟨h, l, m⟩, f⟩
  | .malformed => .error ()

/-- Db.update_hash_db: writes the hash db as JSON text and the phash db
as a pickle blob, fully overwriting both backing files. -/
def State.update_hash_db (s : State) : State :=
  { s with files := { s.files with
      hash_file := renderHashDb s.db.hash_db,
      phash_file := PhashContent.valid s.db.phash_db } }

/-- Db.update_location_db: writes the location db as JSON text. -/
def State.update_location_db (s : State) : State :=
  { s with files := { s.files with loc_file := renderLocDb s.db.location_db } }

/-- Db.add_hash: assigns hash_db[key] = value and, when write is true,
calls update_hash_db. -/
def State.add_hash (s : State) (key value : String) (write : Bool) : State :=
  let s1 := { s with db := { s.db with hash_db := dictInsert s.db.hash_db key value } }
  if write then s1.update_hash_db else s1

/-- Db.add_phash: assigns phash_db[key] = value and, when write is true,
calls update_hash_db. -/
def State.add_phash (s : State) (key : String) (value : PHash) (write : Bool) : State :=
  let s1 := { s with db := { s.db with phash_db := dictInsert s.db.phash_db key value } }
  if write then s1.update_hash_db else s1

/-- Db.add_location: appends the record and, when write is true, calls
update_location_db. -/
def State.add_location (s : State) (latitude longitude : ℚ) (place : String)
    (write : Bool) : State :=
  let s1 := { s with db :=
    { s.db with location_db := s.db.location_db ++ [⟨latitude, longitude, place⟩] } }
  if write then s1.update_location_db else s1

/-- Db.reset_hash_db: replaces hash_db and phash_db by empty dicts in
memory; nothing else is touched and nothing is written. -/
def State.reset_hash_db (s : State) : State :=
  { s with db := { s.db with hash_db := [], phash_db := [] } }

/-- Truncation to a 32-bit word. -/
def w32 (n : Nat) : Nat :=
  n % 4294967296

/-- Right rotation of a 32-bit word. -/
def rotr (x n : Nat) : Nat :=
  ((x >>> n) ||| (x <<< (32 - n))) % 4294967296

/-- The big sigma-0 function of SHA-256. -/
def bsig0 (x : Nat) : Nat :=
  rotr x 2 ^^^ rotr x 13 ^^^ rotr x 22

/-- The big sigma-1 function of SHA-256. -/
def bsig1 (x : Nat) : Nat :=
  rotr x 6 ^^^ rotr x 11 ^^^ rotr x 25

/-- The small sigma-0 function of SHA-256. -/
def ssig0 (x : Nat) : Nat :=
  rotr x 7 ^^^ rotr x 18 ^^^ (x >>> 3)

/-- The small sigma-1 function of SHA-256. -/
def ssig1 (x : Nat) : Nat :=
  rotr x 17 ^^^ rotr x 19 ^^^ (x >>> 10)

/-- The choice function of SHA-256. -/
def chF (e f g : Nat) : Nat :=
  (e &&& f) ^^^ ((4294967295 ^^^ e) &&& g)

/-- The majority function of SHA-256. -/
def majF (a b c : Nat) : Nat :=
  (a &&& b) ^^^ (a &&& c) ^^^ (b &&& c)

/-- The 64 round constants of SHA-256, in decimal. -/
def sha256K : List Nat :=
  [1116352408, 1899447441, 3049323471, 3921009573, 961987163, 1508970993,
   2453635748, 2870763221, 3624381080, 310598401, 607225278, 1426881987,
   1925078388, 2162078206, 2614888103, 3248222580, 3835390401, 4022224774,
   264347078, 604807628, 770255983, 1249150122, 1555081692, 1996064986,
   2554220882, 2821834349, 2952996808, 3210313671, 3336571891, 3584528711,
   113926993, 338241895, 666307205, 773529912, 1294757372, 1396182291,
   1695183700, 1986661051, 2177026350, 2456956037, 2730485921, 2820302411,
   3259730800, 3345764771, 3516065817, 3600352804, 4094571909, 275423344,
   430227734, 506948616, 659060556, 883997877, 958139571, 1322822218,
   1537002063, 1747873779, 1955562222, 2024104815, 2227730452, 2361852424,
   2428436474, 2756734187, 3204031479, 3329325298]

/-- The initial hash state of SHA-256, in decimal. -/
def sha256H0 : List Nat :=
  [1779033703, 3144134277, 1013904242, 2773480762,
   1359893119, 2600822924, 528734635, 1541459225]

/-- Big-endian byte representation of a value in n bytes. -/
def bytesBE (n v : Nat) : List Nat :=
  (List.range n).map fun i => (v >>> (8 * (n - 1 - i))) % 256

/-- Splitting of a list into consecutive chunks of n elements. -/
def chunkBytes {α : Type} (n : Nat) (l : List α) : List (List α) :=
  if h : l.length = 0 ∨ n = 0 then []
  else l.take n :: chunkBytes n (l.drop n)
termination_by l.length
decreasing_by
  simp only [not_or] at h
  have h1 : 0 < l.length := Nat.pos_of_ne_zero h.1
  have h2 : 0 < n := Nat.pos_of_ne_zero h.2
  simp only [List.length_drop]
  omega

/-- The sixteen 32-bit big-endian words of a 64-byte block. -/
def toWordsBE (block : List Nat) : List Nat :=
  (chunkBytes 4 block).map fun w => w.foldl (fun a b => a * 256 + b) 0

/-- Extension of the sixteen block words to the 64-word message
schedule. -/
def msgSchedule (ws : List Nat) : List Nat :=
  (List.range 48).foldl (fun w _ =>
    w ++ [w32 (ssig1 (w.getD (w.length - 2) 0) + w.getD (w.length - 7) 0 +
               ssig0 (w.getD (w.length - 15) 0) + w.getD (w.length - 16) 0)]) ws

/-- The SHA-256 compression function applied to one 64-byte block. -/
def compressBlock (h : List Nat) (block : List Nat) : List Nat :=
  let w := msgSchedule (toWordsBE block)
  let init := (h.getD 0 0, h.getD 1 0, h.getD 2 0, h.getD 3 0,
               h.getD 4 0, h.getD 5 0, h.getD 6 0, h.getD 7 0)
  let fin := (sha256K.zip w).foldl
    (fun st kw =>
      let (a, b, c, d2, e, f, g, hh) := st
      let t1 := w32 (hh + bsig1 e + chF e f g + kw.1 + kw.2)
      let t2 := w32 (bsig0 a + majF a b c)
      (w32 (t1 + t2), a, b, c, w32 (d2 + t1), e, f, g)) init
  match fin with
  | (a, b, c, d2, e, f, g, hh) =>
    [w32 (h.getD 0 0 + a), w32 (h.getD 1 0 + b), w32 (h.getD 2 0 + c),
     w32 (h.getD 3 0 + d2), w32 (h.getD 4 0 + e), w32 (h.getD 5 0 + f),
     w32 (h.getD 6 0 + g), w32 (h.getD 7 0 + hh)]

/-- SHA-256 padding: a 0x80 byte, zeros up to 56 modulo 64, and the bit
length in eight big-endian bytes. -/
def sha256pad (msg : List Nat) : List Nat :=
  msg ++ 128 :: (List.replicate ((119 - msg.length % 64) % 64) 0 ++ bytesBE 8 (msg.length * 8))

/-- The SHA-256 digest of a byte sequence, as 32 bytes. -/
def sha256 (msg : List Nat) : List Nat :=
  (((chunkBytes 64 (sha256pad msg)).foldl compressBlock sha256H0).map (bytesBE 4)).flatten

/-- Two lowercase hexadecimal digits of one byte. -/
def byteHex (b : Nat) : List Char :=
  [hexDig (b / 16 % 16), hexDig (b % 16)]

/-- The lowercase hexadecimal digest string of a byte sequence, as
hexdigest returns it. -/
def sha256hex (msg : List Nat) : String :=
  ⟨((sha256 msg).map byteHex).flatten⟩

/-- The read loop of Db.checksum: reads blocksize bytes at a time and
feeds each non-empty block to the hasher, whose state is the byte
sequence absorbed so far. -/
def readLoop (blocksize : Nat) (content acc : List Nat) : List Nat :=
  if h : content.take blocksize = [] then acc
  else readLoop blocksize (content.drop blocksize) (acc ++ content.take blocksize)
termination_by content.length
decreasing_by
  rw [List.take_eq_nil_iff, not_or] at h
  have h1 : 0 < content.length := List.length_pos.mpr h.2
  have h2 : 0 < blocksize := Nat.pos_of_ne_zero h.1
  simp only [List.length_drop]
  omega

/-- Db.checksum: streams the file content through hashlib.sha256 in
blocks of the given size and returns the hexdigest. -/
def Db.checksum (content : List Nat) (blocksize : Nat) : String :=
  sha256hex (readLoop blocksize content [])

/-- A wall-clock time as strftime sees it. -/
structure Timestamp where
  year : Nat
  month : Nat
  day : Nat
  hour : Nat
  minute : Nat
  second : Nat
  deriving DecidableEq, Repr

/-- Zero-padding to two digits. -/
def pad2 (n : Nat) : String :=
  if n < 10 then "0" ++ toString n else toString n

/-- Zero-padding to four digits. -/
def pad4 (n : Nat) : String :=
  if n < 10 then "000" ++ toString n
  else if n < 100 then "00" ++ toString n
  else if n < 1000 then "0" ++ toString n
  else toString n

/-- The timestamp string strftime produces for the format
percent-Y dash percent-m dash percent-d underscore percent-H dash
percent-M dash percent-S. -/
def formatTs (t : Timestamp) : String :=
  pad4 t.year ++ "-" ++ pad2 t.month ++ "-" ++ pad2 t.day ++ "_" ++
  pad2 t.hour ++ "-" ++ pad2 t.minute ++ "-" ++ pad2 t.second

/-- File existence in a directory modeled as an association of paths to
raw byte contents. -/
def fileExists (fs : List (String × String)) (p : String) : Bool :=
  (lookupKey fs p).isSome

/-- Content of a file, defaulting to empty; only read behind an
existence check. -/
def getFileD (fs : List (String × String)) (p : String) : String :=
  (lookupKey fs p).getD ""

/-- Db.backup_hash_db over a directory of raw files.  The two strftime
calls are passed in as t1 and t2; each existing source file is copied to
a sibling named with the timestamp suffix.  The returned Except models
the final return statement: when the hash db file was absent the local
hash_backup_file_name was never assigned, and evaluating it raises
UnboundLocalError, modeled as the error outcome; the phash copy made
just before still took effect on the file system. -/
def Db.backup_hash_db (fs : List (String × String)) (hashPath phashPath : String)
    (t1 t2 : Timestamp) : List (String × String) × Except Unit String :=
  let step1 :=
    if fileExists fs hashPath then
      let nm := hashPath ++ "-" ++ formatTs t1
      (dictInsert fs nm (getFileD fs hashPath), some nm)
    else (fs, none)
  let fs2 :=
    if fileExists step1.1 phashPath then
      dictInsert step1.1 (phashPath ++ "-" ++ formatTs t2) (getFileD step1.1 phashPath)
    else step1.1
  match step1.2 with
  | some nm => (fs2, Except.ok nm)
  | none => (fs2, Except.error ())

lemma lookupKey_cons {α : Type} (p : String × α) (rest : List (String × α)) (key : String) :
    lookupKey (p :: rest) key = if p.1 = key then some p.2 else lookupKey rest key :=
  rfl

lemma lookupKey_replace {α : Type} (d : List (String × α)) (k : String) (v : α) :
    (lookupKey d k).isSome = true →
    lookupKey (d.map fun p => if p.1 = k then (k, v) else p) k = some v := by
  induction d with
  | nil => intro h; simp [lookupKey] at h
  | cons p rest ih =>
    intro h
    by_cases hp : p.1 = k
    · simp [lookupKey, hp]
    · simp only [lookupKey] at h
      rw [if_neg hp] at h
      simpa [lookupKey, hp] using ih h

lemma lookupKey_append_single {α : Type} (d : List (String × α)) (k : String) (v : α)
    (hnone : lookupKey d k = none) :
    lookupKey (d ++ [(k, v)]) k = some v := by
  induction d with
  | nil => simp [lookupKey]
  | cons p rest ih =>
    by_cases hp : p.1 = k
    · simp [lookupKey, hp] at hnone
    · simp only [lookupKey] at hnone
      rw [if_neg hp] at hnone
      simp only [List.cons_append, lookupKey]
      rw [if_neg hp]
      exact ih hnone

lemma lookupKey_dictInsert_self {α : Type} (d : List (String × α)) (k : String) (v : α) :
    lookupKey (dictInsert d k v) k = some v := by
  unfold dictInsert
  by_cases h : (lookupKey d k).isSome = true
  · rw [if_pos h]; exact lookupKey_replace d k v h
  · rw [if_neg h]
    exact lookupKey_append_single d k v (Option.not_isSome_iff_eq_none.mp h)

lemma lookupKey_replace_ne {α : Type} (d : List (String × α)) (k k' : String) (v : α)
    (hne : k' ≠ k) :
    lookupKey (d.map fun p => if p.1 = k then (k, v) else p) k' = lookupKey d k' := by
  induction d with
  | nil => rfl
  | cons p rest ih =>
    by_cases hp : p.1 = k
    · simp only [List.map_cons, hp, ite_true]
      rw [lookupKey_cons, lookupKey_cons,
          if_neg (show ¬(k, v).1 = k' from fun hh => hne hh.symm),
          if_neg (show ¬p.1 = k' from by rw [hp]; exact fun hh => hne hh.symm)]
      exact ih
    · simp only [List.map_cons, hp, ite_false]
      rw [lookupKey_cons, lookupKey_cons]
      by_cases hp' : p.1 = k'
      · rw [if_pos hp', if_pos hp']
      · rw [if_neg hp', if_neg hp']
        exact ih

lemma lookupKey_append_single_ne {α : Type} (d : List (String × α)) (k k' : String)
    (v : α) (hne : k' ≠ k) :
    lookupKey (d ++ [(k, v)]) k' = lookupKey d k' := by
  induction d with
  | nil =>
    simp only [List.nil_append, lookupKey]
    rw [if_neg (show ¬k = k' from fun hh => hne hh.symm)]
  | cons p rest ih =>
    simp only [List.cons_append, lookupKey]
    by_cases hp' : p.1 = k'
    · rw [if_pos hp', if_pos hp']
    · rw [if_neg hp', if_neg hp']
      exact ih

lemma lookupKey_dictInsert_ne {α : Type} (d : List (String × α)) (k k' : String) (v : α)
    (hne : k' ≠ k) :
    lookupKey (dictInsert d k v) k' = lookupKey d k' := by
  unfold dictInsert
  by_cases h : (lookupKey d k).isSome = true
  · rw [if_pos h]; exact lookupKey_replace_ne d k k' v hne
  · rw [if_neg h]; exact lookupKey_append_single_ne d k k' v hne

/-- C5: last write wins. PutChecksum(k, v1) then PutChecksum(k, v2) leaves
GetChecksum(k) = v2, and the same for the perceptual-hash store, for any
store state and any write flags. -/
theorem put_get_last_write_wins (s : State) (k : String) (v1 v2 : String)
    (w1 w2 : Bool) (p1 p2 : PHash) (w3 w4 : Bool) :
    ((s.add_hash k v1 w1).add_hash k v2 w2).db.get_hash k = some v2 ∧
    ((s.add_phash k p1 w3).add_phash k p2 w4).db.get_phash k = some p2 := by
  have hdb : ∀ (t : State) (v : String) (w : Bool),
      (t.add_hash k v w).db.hash_db = dictInsert t.db.hash_db k v := by
    intro t v w
    unfold State.add_hash State.update_hash_db
    cases w <;> rfl
  have hpdb : ∀ (t : State) (p : PHash) (w : Bool),
      (t.add_phash k p w).db.phash_db = dictInsert t.db.phash_db k p := by
    intro t p w
    unfold State.add_phash State.update_hash_db
    cases w <;> rfl
  constructor
  · have hl : lookupKey ((s.add_hash k v1 w1).add_hash k v2 w2).db.hash_db k = some v2 := by
      rw [hdb, hdb]; exact lookupKey_dictInsert_self _ k v2
    simp [Db.get_hash, Db.check_hash, hl]
  · have hl : lookupKey ((s.add_phash k p1 w3).add_phash k p2 w4).db.phash_db k = some p2 := by
      rw [hpdb, hpdb]; exact lookupKey_dictInsert_self _ k p2
    simp [Db.get_phash, Db.check_phash, hl]

/-- C6: reset_hash_db clears the checksum map and the phash map in memory,
so that the all generator yields nothing and check_hash and check_phash
are false for every key, while the location list and all three backing
files are untouched. -/
theorem reset_clears_in_memory_only (s : State) :
    s.reset_hash_db.files = s.files ∧
    s.reset_hash_db.db.location_db = s.db.location_db ∧
    s.reset_hash_db.db.all = [] ∧
    s.reset_hash_db.db.phash_db = [] ∧
    (∀ k, s.reset_hash_db.db.check_hash k = false) ∧
    (∀ k, s.reset_hash_db.db.check_phash k = false) := by
  refine ⟨rfl, rfl, rfl, rfl, ?_, ?_⟩ <;>
    intro k <;>
    simp [State.reset_hash_db, Db.check_hash, Db.check_phash, Db.all, lookupKey]

lemma findCoords_eq_find (l : List LocRecord) (n : String) :
    Db.get_location_coordinates.findCoords l n =
      (l.find? fun r => r.name == n).map fun r => (r.lat, r.long) := by
  induction l with
  | nil => simp [Db.get_location_coordinates.findCoords]
  | cons r rest ih =>
    by_cases h : r.name = n
    · rw [List.find?_cons_of_pos _ (by simp [h])]
      simp [Db.get_location_coordinates.findCoords, h]
    · rw [List.find?_cons_of_neg _ (by simp [h])]
      simpa [Db.get_location_coordinates.findCoords, h] using ih

/-- C8: get_location_coordinates returns the latitude and longitude of
the first record in insertion order whose name equals the query, absent
when none matches; in particular after add_location(12.5, -7.25, A) the
query A returns (12.5, -7.25). -/
theorem get_location_coordinates_first_match (db : Db) (name : String) :
    db.get_location_coordinates name =
      (db.location_db.find? fun r => r.name == name).map (fun r => (r.lat, r.long)) ∧
    (State.add_location ⟨⟨[], [], []⟩, ⟨"", "", PhashContent.empty⟩⟩
        12.5 (-7.25) "A" false).db.get_location_coordinates "A" =
      some (12.5, -7.25) := by
  constructor
  · exact findCoords_eq_find db.location_db name
  · rfl

lemma foldl_locStep_none (latitude longitude threshold : ℚ) (l : List LocRecord)
    (hfar : ∀ r ∈ l, (threshold : ℝ) < equiDist latitude longitude r) :
    ∀ d0 : ℝ, (l.foldl (locStep latitude longitude threshold) (d0, none)).2 = none := by
  induction l with
  | nil => intro d0; rfl
  | cons r rest ih =>
    intro d0
    have hr := hfar r (by simp)
    have hcond : ¬(equiDist latitude longitude r ≤ (threshold : ℝ) ∧
        equiDist latitude longitude r < d0) := by
      rintro ⟨hle, -⟩
      exact absurd hle (not_le.mpr hr)
    simp only [List.foldl, locStep]
    rw [if_neg hcond]
    exact ih (fun r2 hr2 => hfar r2 (List.mem_cons_of_mem _ hr2)) _

/-- C7: every lookup miss returns None rather than raising: get_hash and
get_phash on an absent key, get_location_coordinates on an unmatched
name, and get_location_name when the threshold is below every stored
record's distance (in particular on an empty location list). -/
theorem misses_return_none (db : Db) (k1 k2 nm : String)
    (latitude longitude threshold : ℚ)
    (h1 : lookupKey db.hash_db k1 = none)
    (h2 : lookupKey db.phash_db k2 = none)
    (h3 : ∀ r ∈ db.location_db, r.name ≠ nm)
    (h4 : ∀ r ∈ db.location_db, (threshold : ℝ) < equiDist latitude longitude r) :
    db.get_hash k1 = none ∧ db.get_phash k2 = none ∧
    db.get_location_coordinates nm = none ∧
    db.get_location_name latitude longitude threshold = none := by
  refine ⟨?_, ?_, ?_, ?_⟩
  · simp [Db.get_hash, Db.check_hash, h1]
  · simp [Db.get_phash, Db.check_phash, h2]
  · rw [Db.get_location_coordinates, findCoords_eq_find]
    rw [List.find?_eq_none.mpr (fun r hr => by simpa using h3 r hr)]
    rfl
  · unfold Db.get_location_name
    exact foldl_locStep_none latitude longitude threshold db.location_db h4 _

lemma readLoop_eq_append (blocksize : Nat) (hbs : 0 < blocksize) :
    ∀ (n : Nat) (content : List Nat), content.length ≤ n →
      ∀ acc, readLoop blocksize content acc = acc ++ content := by
  intro n
  induction n with
  | zero =>
    intro content hlen acc
    have hnil : content = [] := List.eq_nil_of_length_eq_zero (Nat.le_zero.mp hlen)
    subst hnil
    unfold readLoop
    simp
  | succ n ih =>
    intro content hlen acc
    unfold readLoop
    split
    · next htake =>
      rcases List.take_eq_nil_iff.mp htake with h0 | h0
      · omega
      · simp [h0]
    · next htake =>
      rw [ih (content.drop blocksize) (by simp only [List.length_drop]; omega)
          (acc ++ content.take blocksize)]
      rw [List.append_assoc, List.take_append_drop]

lemma sha256hex_chars (msg : List Nat) :
    ∀ c ∈ (sha256hex msg).data, c ∈ ("0123456789abcdef" : String).data := by
  intro c hc
  have hc2 : c ∈ ((sha256 msg).map byteHex).flatten := hc
  rcases List.mem_flatten.mp hc2 with ⟨l, hl, hcl⟩
  rcases List.mem_map.mp hl with ⟨b, hb, rfl⟩
  have hx : ∀ k, k < 16 → hexDig k ∈ ("0123456789abcdef" : String).data := by decide
  rcases (by simpa [byteHex] using hcl : c = hexDig (b / 16 % 16) ∨ c = hexDig (b % 16)) with
    rfl | rfl
  · exact hx _ (Nat.mod_lt _ (by norm_num))
  · exact hx _ (Nat.mod_lt _ (by norm_num))

/-- C4: for every file content and positive blocksize, checksum equals
the lowercase hexadecimal SHA-256 digest of the entire byte content (the
block streaming absorbs exactly the whole file), it is independent of
the positive blocksize and deterministic across repeated calls, and its
output characters are lowercase hexadecimal digits. -/
theorem checksum_is_sha256_of_whole_content (content : List Nat) (blocksize : Nat)
    (hbs : 0 < blocksize) :
    Db.checksum content blocksize = sha256hex content ∧
    (∀ blocksize2, 0 < blocksize2 →
      Db.checksum content blocksize = Db.checksum content blocksize2) ∧
    (∀ c ∈ (Db.checksum content blocksize).data, c ∈ ("0123456789abcdef" : String).data) := by
  have key : ∀ bs, 0 < bs → Db.checksum content bs = sha256hex content := by
    intro bs hbs2
    unfold Db.checksum
    rw [readLoop_eq_append bs hbs2 content.length content (Nat.le_refl _) []]
    rfl
  refine ⟨key blocksize hbs, ?_, ?_⟩
  · intro bs2 hbs2
    rw [key blocksize hbs, key bs2 hbs2]
  · rw [key blocksize hbs]
    exact sha256hex_chars content

/-- Witness for C4 at empty content and the default blocksize 65536. -/
theorem checksum_is_sha256_of_whole_content_witness :
    0 < 65536 ∧
    (Db.checksum [] 65536 = sha256hex [] ∧
     (∀ blocksize2, 0 < blocksize2 → Db.checksum [] 65536 = Db.checksum [] blocksize2) ∧
     (∀ c ∈ (Db.checksum [] 65536).data, c ∈ ("0123456789abcdef" : String).data)) :=
  ⟨by decide, checksum_is_sha256_of_whole_content [] 65536 (by decide)⟩

/-- C2 counterexample: a malformed non-empty phash backing file makes
construction fail (pickle.load is not guarded by a handler), refuting
the claim that malformed content is tolerated for all three
collections. -/
theorem dbinit_malformed_phash_fails :
    dbInit ⟨"", "", PhashContent.malformed⟩ = Except.error () :=
  rfl

/-- C2 amended: for checksum and location files whose content fails to
parse (including empty content), construction succeeds and those
collections start empty; an empty phash file is tolerated as well, with
the phash map starting empty, but a malformed non-empty phash file makes
construction fail. -/
theorem dbinit_tolerates_json_failures (h l : String)
    (hh : parseStrDict h = none) (hl : parseLocArray l = none) :
    dbInit ⟨h, l, PhashContent.empty⟩ =
      Except.ok ⟨⟨[], [], []⟩, ⟨h, l, PhashContent.empty⟩⟩ ∧
    dbInit ⟨h, l, PhashContent.malformed⟩ = Except.error () := by
  constructor
  · simp [dbInit, hh, hl]
  · rfl

/-- Witness for C2 at empty file contents. -/
theorem dbinit_tolerates_json_failures_witness :
    (parseStrDict "" = none ∧ parseLocArray "" = none) ∧
    (dbInit ⟨"", "", PhashContent.empty⟩ =
       Except.ok ⟨⟨[], [], []⟩, ⟨"", "", PhashContent.empty⟩⟩ ∧
     dbInit ⟨"", "", PhashContent.malformed⟩ = Except.error ()) :=
  ⟨⟨rfl, rfl⟩, dbinit_tolerates_json_failures "" "" rfl rfl⟩

/-- C1 evaluation at a failing input: with records A at (0, 0),
B at (0, 0.001) and C at (0, 0.0005) and query (0, 0) with threshold
200 m, get_location_name returns C (distance about 55.6 m) although the
true minimum-distance qualifying record is A at distance 0, because each
candidate is compared to the immediately preceding record's distance
rather than to a running minimum.  On the spec's own two-record list
[A, B] the scan does return A, so the defect only shows on lists that
are not sorted by distance. -/
theorem get_location_name_not_true_minimum :
    (Db.mk [] [⟨0, 0, "A"⟩, ⟨0, 1/1000, "B"⟩, ⟨0, 1/2000, "C"⟩] []).get_location_name
        0 0 200 = some "C" ∧
    (Db.mk [] [⟨0, 0, "A"⟩, ⟨0, 1/1000, "B"⟩] []).get_location_name 0 0 200 = some "A" ∧
    equiDist 0 0 ⟨0, 0, "A"⟩ = 0 := by
  have dA : equiDist 0 0 ⟨0, 0, "A"⟩ = 0 := by
    simp only [equiDist]; push_cast; norm_num
  have dB : equiDist 0 0 ⟨0, 1/1000, "B"⟩ = 6371000 * (Real.pi / 180000) := by
    simp only [equiDist]; push_cast; norm_num
    rw [Real.sqrt_mul_self (by positivity)]; ring
  have dC : equiDist 0 0 ⟨0, 1/2000, "C"⟩ = 6371000 * (Real.pi / 360000) := by
    simp only [equiDist]; push_cast; norm_num
    rw [Real.sqrt_mul_self (by positivity)]; ring
  have hCle : 6371000 * (Real.pi / 360000) ≤ ((200 : ℚ) : ℝ) := by
    push_cast; nlinarith [Real.pi_lt_d2]
  have hBpos : (0 : ℝ) ≤ 6371000 * (Real.pi / 180000) := by positivity
  have hCB : 6371000 * (Real.pi / 360000) < 6371000 * (Real.pi / 180000) := by
    nlinarith [Real.pi_pos]
  have hnB : ¬(6371000 * (Real.pi / 180000) ≤ ((200 : ℚ) : ℝ) ∧
      6371000 * (Real.pi / 180000) < 0) := by
    rintro ⟨-, hlt⟩
    exact absurd hlt (not_lt.mpr hBpos)
  have hA : (0 : ℝ) ≤ ((200 : ℚ) : ℝ) ∧ (0 : ℝ) < 2 ^ 63 - 1 :=
    ⟨by push_cast; norm_num, by norm_num⟩
  refine ⟨?_, ?_, dA⟩
  · unfold Db.get_location_name
    simp only [List.foldl, locStep]
    rw [dA, dB, dC]
    rw [if_pos ⟨hCle, hCB⟩]
  · unfold Db.get_location_name
    simp only [List.foldl, locStep]
    rw [dA, dB]
    rw [if_neg hnB, if_pos hA]

/-- C9: when both the checksum file and the phash file exist, the backup
creates two files whose content equals the pre-backup originals exactly,
named by appending a dash and the strftime timestamp to each original
name, and returns the checksum backup's name.  The freshness and
distinctness hypotheses say the two backup names are new files that do
not collide with the originals or each other. -/
theorem backup_copies_both_files (fs : List (String × String))
    (hashPath phashPath : String) (t1 t2 : Timestamp) (hc pc : String)
    (hH : lookupKey fs hashPath = some hc)
    (hP : lookupKey fs phashPath = some pc)
    (hfresh1 : lookupKey fs (hashPath ++ "-" ++ formatTs t1) = none)
    (hfresh2 : lookupKey fs (phashPath ++ "-" ++ formatTs t2) = none)
    (hne1 : hashPath ++ "-" ++ formatTs t1 ≠ phashPath)
    (hne2 : phashPath ++ "-" ++ formatTs t2 ≠ hashPath ++ "-" ++ formatTs t1) :
    lookupKey (Db.backup_hash_db fs hashPath phashPath t1 t2).1
        (hashPath ++ "-" ++ formatTs t1) = some hc ∧
    lookupKey (Db.backup_hash_db fs hashPath phashPath t1 t2).1
        (phashPath ++ "-" ++ formatTs t2) = some pc ∧
    (Db.backup_hash_db fs hashPath phashPath t1 t2).2 =
      Except.ok (hashPath ++ "-" ++ formatTs t1) := by
  have e1 : fileExists fs hashPath = true := by simp [fileExists, hH]
  have hgd : getFileD fs hashPath = hc := by simp [getFileD, hH]
  have hfs1 : lookupKey (dictInsert fs (hashPath ++ "-" ++ formatTs t1) hc) phashPath =
      some pc := by
    rw [lookupKey_dictInsert_ne _ _ _ _ (fun hh => hne1 hh.symm)]
    exact hP
  have e2 : fileExists (dictInsert fs (hashPath ++ "-" ++ formatTs t1) hc) phashPath =
      true := by simp [fileExists, hfs1]
  have hgd2 : getFileD (dictInsert fs (hashPath ++ "-" ++ formatTs t1) hc) phashPath =
      pc := by simp [getFileD, hfs1]
  unfold Db.backup_hash_db
  simp only [e1, ite_true, e2, hgd, hgd2]
  refine ⟨?_, ?_, trivial⟩
  · rw [lookupKey_dictInsert_ne _ _ _ _ hne2.symm]
    exact lookupKey_dictInsert_self fs _ hc
  · exact lookupKey_dictInsert_self _ _ pc

/-- Witness for C9 at a concrete two-file directory. -/
theorem backup_copies_both_files_witness :
    (lookupKey [("h", "HC"), ("p", "PC")] "h" = some "HC" ∧
     lookupKey [("h", "HC"), ("p", "PC")] "p" = some "PC" ∧
     lookupKey [("h", "HC"), ("p", "PC")]
       ("h" ++ "-" ++ formatTs ⟨2020, 1, 2, 3, 4, 5⟩) = none ∧
     lookupKey [("h", "HC"), ("p", "PC")]
       ("p" ++ "-" ++ formatTs ⟨2020, 1, 2, 3, 4, 5⟩) = none ∧
     "h" ++ "-" ++ formatTs ⟨2020, 1, 2, 3, 4, 5⟩ ≠ "p" ∧
     "p" ++ "-" ++ formatTs ⟨2020, 1, 2, 3, 4, 5⟩ ≠
       "h" ++ "-" ++ formatTs ⟨2020, 1, 2, 3, 4, 5⟩) ∧
    (lookupKey (Db.backup_hash_db [("h", "HC"), ("p", "PC")] "h" "p"
        ⟨2020, 1, 2, 3, 4, 5⟩ ⟨2020, 1, 2, 3, 4, 5⟩).1
        ("h" ++ "-" ++ formatTs ⟨2020, 1, 2, 3, 4, 5⟩) = some "HC" ∧
     lookupKey (Db.backup_hash_db [("h", "HC"), ("p", "PC")] "h" "p"
        ⟨2020, 1, 2, 3, 4, 5⟩ ⟨2020, 1, 2, 3, 4, 5⟩).1
        ("p" ++ "-" ++ formatTs ⟨2020, 1, 2, 3, 4, 5⟩) = some "PC" ∧
     (Db.backup_hash_db [("h", "HC"), ("p", "PC")] "h" "p"
        ⟨2020, 1, 2, 3, 4, 5⟩ ⟨2020, 1, 2, 3, 4, 5⟩).2 =
       Except.ok ("h" ++ "-" ++ formatTs ⟨2020, 1, 2, 3, 4, 5⟩)) :=
  ⟨⟨by decide, by decide, by decide, by decide, by decide, by decide⟩,
   backup_copies_both_files [("h", "HC"), ("p", "PC")] "h" "p"
     ⟨2020, 1, 2, 3, 4, 5⟩ ⟨2020, 1, 2, 3, 4, 5⟩ "HC" "PC"
     (by decide) (by decide) (by decide) (by decide) (by decide) (by decide)⟩

/-- C10: when the checksum file is absent, backup_hash_db reaches its
return statement with the local hash_backup_file_name never assigned and
raises UnboundLocalError (the error outcome) instead of returning an
absent result; the phash file, when present, has nevertheless already
been copied to its timestamped sibling. -/
theorem backup_missing_hash_file_raises (fs : List (String × String))
    (hashPath phashPath : String) (t1 t2 : Timestamp) (pc : String)
    (hH : lookupKey fs hashPath = none)
    (hP : lookupKey fs phashPath = some pc) :
    (Db.backup_hash_db fs hashPath phashPath t1 t2).2 = Except.error () ∧
    lookupKey (Db.backup_hash_db fs hashPath phashPath t1 t2).1
        (phashPath ++ "-" ++ formatTs t2) = some pc := by
  have e1 : fileExists fs hashPath = false := by simp [fileExists, hH]
  have e2 : fileExists fs phashPath = true := by simp [fileExists, hP]
  have hgd : getFileD fs phashPath = pc := by simp [getFileD, hP]
  unfold Db.backup_hash_db
  simp only [e1, ite_false, Bool.false_eq_true, e2, ite_true, hgd]
  exact ⟨trivial, lookupKey_dictInsert_self _ _ pc⟩

/-- Witness for C10 at a concrete directory holding only the phash
file. -/
theorem backup_missing_hash_file_raises_witness :
    (lookupKey [("p", "PC")] "h" = none ∧ lookupKey [("p", "PC")] "p" = some "PC") ∧
    ((Db.backup_hash_db [("p", "PC")] "h" "p"
        ⟨2020, 1, 2, 3, 4, 5⟩ ⟨2020, 1, 2, 3, 4, 5⟩).2 = Except.error () ∧
     lookupKey (Db.backup_hash_db [("p", "PC")] "h" "p"
        ⟨2020, 1, 2, 3, 4, 5⟩ ⟨2020, 1, 2, 3, 4, 5⟩).1
        ("p" ++ "-" ++ formatTs ⟨2020, 1, 2, 3, 4, 5⟩) = some "PC") :=
  ⟨⟨by decide, by decide⟩,
   backup_missing_hash_file_raises [("p", "PC")] "h" "p"
     ⟨2020, 1, 2, 3, 4, 5⟩ ⟨2020, 1, 2, 3, 4, 5⟩ "PC" (by decide) (by decide)⟩

/-- Witness for C7 at a concrete store with empty collections, covering
the empty-location-list case of the nearest-name lookup. -/
theorem misses_return_none_witness :
    (lookupKey (Db.mk [] [] []).hash_db "k" = none ∧
     lookupKey (Db.mk [] [] []).phash_db "k" = none ∧
     (∀ r ∈ (Db.mk [] [] []).location_db, r.name ≠ "A") ∧
     (∀ r ∈ (Db.mk [] [] []).location_db, ((100 : ℚ) : ℝ) < equiDist 0 0 r)) ∧
    ((Db.mk [] [] []).get_hash "k" = none ∧
     (Db.mk [] [] []).get_phash "k" = none ∧
     (Db.mk [] [] []).get_location_coordinates "A" = none ∧
     (Db.mk [] [] []).get_location_name 0 0 100 = none) :=
  ⟨⟨rfl, rfl, by simp, by simp⟩,
   misses_return_none (Db.mk [] [] []) "k" "k" "A" 0 0 100 rfl rfl (by simp) (by simp)⟩


lemma hex4_uEsc (n : Nat) (hn : n < 65536) :
    hex4 (hexDig (n / 4096 % 16)) (hexDig (n / 256 % 16))
      (hexDig (n / 16 % 16)) (hexDig (n % 16)) = some n := by
  have hv : ∀ k, k < 16 → hexVal (hexDig k) = some k := by decide
  unfold hex4
  rw [hv _ (Nat.mod_lt _ (by norm_num)), hv _ (Nat.mod_lt _ (by norm_num)),
      hv _ (Nat.mod_lt _ (by norm_num)), hv _ (Nat.mod_lt _ (by norm_num))]
  show some ((((n / 4096 % 16) * 16 + n / 256 % 16) * 16 + n / 16 % 16) * 16 + n % 16) = some n
  exact congrArg some (by omega)

lemma parseStrBody_uEsc_plain (f n : Nat) (tail : List Char) (hn : n < 65536)
    (hs1 : ¬(55296 ≤ n ∧ n < 56320)) (hs2 : ¬(56320 ≤ n ∧ n < 57344)) :
    parseStrBody (f + 1) (uEsc n ++ tail) =
      match parseStrBody f tail with
      | some (l, r) => some (Char.ofNat n :: l, r)
      | none => none := by
  simp only [uEsc, List.cons_append, List.nil_append]
  simp [parseStrBody, hex4_uEsc n hn, hs1, hs2]

lemma parseStrBody_uEsc_high (f n : Nat) (tail : List Char)
    (hs1 : 55296 ≤ n ∧ n < 56320) (hn : n < 65536) :
    parseStrBody (f + 1) (uEsc n ++ tail) =
      match parseLowSur n tail with
      | some (ch, rest2) =>
        match parseStrBody f rest2 with
        | some (l, r) => some (ch :: l, r)
        | none => none
      | none => none := by
  simp only [uEsc, List.cons_append, List.nil_append]
  simp [parseStrBody, hex4_uEsc n hn, hs1]

lemma parseLowSur_uEsc (n m : Nat) (rest : List Char) (hm : 56320 ≤ m ∧ m < 57344)
    (hm2 : m < 65536) :
    parseLowSur n (uEsc m ++ rest) =
      some (Char.ofNat (65536 + (n - 55296) * 1024 + (m - 56320)), rest) := by
  simp only [uEsc, List.cons_append, List.nil_append]
  simp [parseLowSur, hex4_uEsc m hm2, hm]

lemma char_toNat_valid (c : Char) :
    c.toNat < 55296 ∨ (57343 < c.toNat ∧ c.toNat < 1114112) := by
  have hv := c.valid
  unfold UInt32.isValidChar Nat.isValidChar at hv
  simpa [Char.toNat] using hv

lemma parseStrBody_escape_roundtrip (l : List Char) :
    ∀ (k : Nat) (rest : List Char),
      parseStrBody (l.length + 1 + k) (escapeChars l ++ '"' :: rest) = some (l, rest) := by
  induction l with
  | nil =>
    intro k rest
    rw [show escapeChars [] = [] from rfl, List.nil_append,
        show ([] : List Char).length + 1 + k = k + 1 from by simp; omega]
    simp [parseStrBody]
  | cons c l' ih =>
    intro k rest
    rw [show escapeChars (c :: l') = escapeChar c ++ escapeChars l' from by
          simp [escapeChars],
        List.append_assoc,
        show (c :: l').length + 1 + k = (l'.length + 1 + k) + 1 from by
          simp [List.length_cons]; omega]
    have hvalid := char_toNat_valid c
    by_cases h1 : c = '"'
    · subst h1
      rw [show escapeChar '"' = ['\\', '"'] from rfl]
      simp [parseStrBody, unescapeSimple, ih k rest]
    by_cases h2 : c = '\\'
    · subst h2
      rw [show escapeChar '\\' = ['\\', '\\'] from rfl]
      simp [parseStrBody, unescapeSimple, ih k rest]
    by_cases h3 : c = '\n'
    · subst h3
      rw [show escapeChar '\n' = ['\\', 'n'] from rfl]
      simp [parseStrBody, unescapeSimple, ih k rest]
    by_cases h4 : c = '\r'
    · subst h4
      rw [show escapeChar '\r' = ['\\', 'r'] from rfl]
      simp [parseStrBody, unescapeSimple, ih k rest]
    by_cases h5 : c = '\t'
    · subst h5
      rw [show escapeChar '\t' = ['\\', 't'] from rfl]
      simp [parseStrBody, unescapeSimple, ih k rest]
    by_cases h6 : c.toNat = 8
    · have hc : Char.ofNat 8 = c := by rw [← h6, Char.ofNat_toNat]
      rw [show escapeChar c = ['\\', 'b'] from by
            simp [escapeChar, h1, h2, h3, h4, h5, h6]]
      simp [parseStrBody, unescapeSimple, ih k rest]
      exact hc
    by_cases h7 : c.toNat = 12
    · have hc : Char.ofNat 12 = c := by rw [← h7, Char.ofNat_toNat]
      rw [show escapeChar c = ['\\', 'f'] from by
            simp [escapeChar, h1, h2, h3, h4, h5, h6, h7]]
      simp [parseStrBody, unescapeSimple, ih k rest]
      exact hc
    by_cases h8 : c.toNat < 32
    · rw [show escapeChar c = uEsc c.toNat from by
            simp [escapeChar, h1, h2, h3, h4, h5, h6, h7, h8],
          parseStrBody_uEsc_plain _ _ _ (by omega) (by omega) (by omega),
          ih k rest]
      simp [Char.ofNat_toNat]
    by_cases h9 : c.toNat < 127
    · rw [show escapeChar c = [c] from by
            simp [escapeChar, h1, h2, h3, h4, h5, h6, h7, h8, h9],
          List.singleton_append]
      simp [parseStrBody, h1, h2, h8, ih k rest]
    by_cases h10 : c.toNat < 65536
    · have hs1 : ¬(55296 ≤ c.toNat ∧ c.toNat < 56320) := by
        rcases hvalid with h | h <;> omega
      have hs2 : ¬(56320 ≤ c.toNat ∧ c.toNat < 57344) := by
        rcases hvalid with h | h <;> omega
      rw [show escapeChar c = uEsc c.toNat from by
            simp [escapeChar, h1, h2, h3, h4, h5, h6, h7, h8, h9, h10],
          parseStrBody_uEsc_plain _ _ _ h10 hs1 hs2, ih k rest]
      simp [Char.ofNat_toNat]
    · have hge : 65536 ≤ c.toNat := by omega
      have hlt : c.toNat < 1114112 := by rcases hvalid with h | h; omega; exact h.2
      have hmod : (c.toNat - 65536) % 1024 < 1024 := Nat.mod_lt _ (by norm_num)
      rw [show escapeChar c =
            uEsc (55296 + (c.toNat - 65536) / 1024) ++
              uEsc (56320 + (c.toNat - 65536) % 1024) from by
            simp [escapeChar, h1, h2, h3, h4, h5, h6, h7, h8, h9, h10],
          List.append_assoc,
          parseStrBody_uEsc_high _ _ _ ⟨by omega, by omega⟩ (by omega),
          parseLowSur_uEsc _ _ _ ⟨by omega, by omega⟩ (by omega),
          show 65536 + (55296 + (c.toNat - 65536) / 1024 - 55296) * 1024 +
              (56320 + (c.toNat - 65536) % 1024 - 56320) = c.toNat from by omega,
          Char.ofNat_toNat]
      simp [ih k rest]

set_option maxHeartbeats 1000000 in
lemma escapeChar_length_pos (c : Char) : 1 ≤ (escapeChar c).length := by
  unfold escapeChar
  split_ifs <;> simp [uEsc]

lemma escapeChars_length_ge (l : List Char) : l.length ≤ (escapeChars l).length := by
  induction l with
  | nil => simp [escapeChars]
  | cons c l' ih =>
    rw [show escapeChars (c :: l') = escapeChar c ++ escapeChars l' from by simp [escapeChars]]
    have := escapeChar_length_pos c
    simp only [List.length_append, List.length_cons]
    omega

lemma parseString_quoteStr (s : String) (rest : List Char) :
    parseString (quoteStr s ++ rest) = some (s, rest) := by
  obtain ⟨sl⟩ := s
  have h : quoteStr ⟨sl⟩ ++ rest = '"' :: (escapeChars sl ++ '"' :: rest) := by
    simp [quoteStr]
  rw [h]
  simp only [parseString]
  rw [show (escapeChars sl ++ '"' :: rest).length + 1 =
        sl.length + 1 + ((escapeChars sl).length - sl.length + rest.length + 1) from by
      simp only [List.length_append, List.length_cons]
      have := escapeChars_length_ge sl
      omega]
  rw [parseStrBody_escape_roundtrip sl _ rest]

lemma skipWs_cons_not (c : Char) (l : List Char) (h : isWs c = false) :
    skipWs (c :: l) = c :: l := by
  simp [skipWs, h]

lemma skipWs_space (l : List Char) : skipWs (' ' :: l) = skipWs l := by
  simp [skipWs, isWs]

lemma quoteStr_head (s : String) (l : List Char) :
    quoteStr s ++ l = '"' :: (escapeChars s.data ++ ['"'] ++ l) := by
  simp [quoteStr]

lemma skipWs_quoteStr_append (s : String) (l : List Char) :
    skipWs (quoteStr s ++ l) = quoteStr s ++ l := by
  rw [quoteStr_head]
  exact skipWs_cons_not _ _ (by decide)

lemma parseMembers_step (f : Nat) (key val : String) (tail : List Char)
    (acc : List (String × String)) :
    parseMembers (f + 1) (renderEntry (key, val) ++ tail) acc =
      (match skipWs tail with
       | ',' :: r4 => parseMembers f (skipWs r4) (dictInsert acc key val)
       | '}' :: r4 => some (dictInsert acc key val, r4)
       | _ => none) := by
  rw [show renderEntry (key, val) ++ tail =
      quoteStr key ++ (':' :: ' ' :: (quoteStr val ++ tail)) from by simp [renderEntry]]
  have hcolon : skipWs (':' :: ' ' :: (quoteStr val ++ tail)) =
      ':' :: ' ' :: (quoteStr val ++ tail) := skipWs_cons_not _ _ (by decide)
  have hspace : skipWs (' ' :: (quoteStr val ++ tail)) = quoteStr val ++ tail := by
    rw [skipWs_space]
    exact skipWs_quoteStr_append val tail
  simp only [parseMembers, parseString_quoteStr, hcolon, hspace]

lemma skipWs_renderEntries_cons (e : String × String) (d : List (String × String))
    (l : List Char) :
    skipWs (renderEntries (e :: d) ++ l) = renderEntries (e :: d) ++ l := by
  cases d with
  | nil =>
    rw [show renderEntries [e] ++ l = quoteStr e.1 ++ (':' :: ' ' :: (quoteStr e.2 ++ l)) from by
      simp [renderEntries, renderEntry]]
    exact skipWs_quoteStr_append _ _
  | cons e2 d'' =>
    rw [show renderEntries (e :: e2 :: d'') ++ l =
        quoteStr e.1 ++ (':' :: ' ' ::
          (quoteStr e.2 ++ (',' :: ' ' :: (renderEntries (e2 :: d'') ++ l)))) from by
      simp [renderEntries, renderEntry]]
    exact skipWs_quoteStr_append _ _

lemma parseMembers_roundtrip (d : List (String × String)) :
    ∀ (k : Nat) (acc : List (String × String)) (rest : List Char), d ≠ [] →
      parseMembers (d.length + 1 + k) (renderEntries d ++ '}' :: rest) acc =
        some (d.foldl (fun a e => dictInsert a e.1 e.2) acc, rest) := by
  induction d with
  | nil => intro k acc rest h; exact absurd rfl h
  | cons e d' ih =>
    intro k acc rest _
    cases d' with
    | nil =>
      have hf : (([e] : List (String × String)).length + 1 + k) = (k + 1) + 1 := by
        simp only [List.length_cons, List.length_nil]
        omega
      have hr : renderEntries [e] ++ '}' :: rest =
          renderEntry (e.1, e.2) ++ ('}' :: rest) := by
        simp [renderEntries]
      rw [hf, hr, parseMembers_step, skipWs_cons_not '}' rest (by decide)]
      rfl
    | cons e2 d'' =>
      have hf : ((e :: e2 :: d'').length + 1 + k) = (((e2 :: d'').length + 1 + k) + 1) := by
        simp only [List.length_cons]
        omega
      have hr : renderEntries (e :: e2 :: d'') ++ '}' :: rest =
          renderEntry (e.1, e.2) ++
            (',' :: ' ' :: (renderEntries (e2 :: d'') ++ '}' :: rest)) := by
        simp [renderEntries, List.append_assoc]
      rw [hf, hr, parseMembers_step, skipWs_cons_not ',' _ (by decide)]
      show parseMembers ((e2 :: d'').length + 1 + k)
          (skipWs (' ' :: (renderEntries (e2 :: d'') ++ '}' :: rest)))
          (dictInsert acc e.1 e.2) = _
      rw [skipWs_space, skipWs_renderEntries_cons e2 d'' ('}' :: rest),
          ih k (dictInsert acc e.1 e.2) rest (by simp)]
      rfl

lemma lookupKey_none_iff {α : Type} (d : List (String × α)) (k : String) :
    lookupKey d k = none ↔ k ∉ d.map Prod.fst := by
  induction d with
  | nil => simp [lookupKey]
  | cons p rest ih =>
    rw [lookupKey_cons]
    by_cases hp : p.1 = k
    · simp [hp]
    · simp only [if_neg hp, ih, List.map_cons, List.mem_cons]
      constructor
      · rintro hmem (h | h)
        · exact hp h.symm
        · exact hmem h
      · intro hh
        exact fun h => hh (Or.inr h)

lemma dictInsert_keys_nodup {α : Type} (d : List (String × α)) (k : String) (v : α)
    (h : (d.map Prod.fst).Nodup) :
    ((dictInsert d k v).map Prod.fst).Nodup := by
  unfold dictInsert
  split
  · have hmap : (d.map fun p => if p.1 = k then (k, v) else p).map Prod.fst =
        d.map Prod.fst := by
      rw [List.map_map]
      apply List.map_congr_left
      intro p _
      by_cases hp : p.1 = k
      · simp [hp]
      · simp [hp]
    rw [hmap]
    exact h
  · next hnone =>
    have hni : k ∉ d.map Prod.fst :=
      (lookupKey_none_iff d k).mp (Option.not_isSome_iff_eq_none.mp hnone)
    rw [List.map_append]
    simp [List.nodup_append, h, hni]

lemma foldl_dictInsert_append (d : List (String × String)) :
    ∀ acc : List (String × String), (d.map Prod.fst).Nodup →
      (∀ p ∈ d, lookupKey acc p.1 = none) →
      d.foldl (fun a e => dictInsert a e.1 e.2) acc = acc ++ d := by
  induction d with
  | nil => intro acc _ _; simp
  | cons e d' ih =>
    intro acc hnd hdisj
    have h1 : lookupKey acc e.1 = none := hdisj e (by simp)
    have h2 : dictInsert acc e.1 e.2 = acc ++ [(e.1, e.2)] := by
      unfold dictInsert
      rw [if_neg (by simp [h1])]
    have hd'nd : (d'.map Prod.fst).Nodup := by
      rw [List.map_cons] at hnd
      exact hnd.of_cons
    have hhead : e.1 ∉ d'.map Prod.fst := by
      rw [List.map_cons] at hnd
      exact (List.nodup_cons.mp hnd).1
    rw [List.foldl_cons, h2, ih (acc ++ [(e.1, e.2)]) hd'nd ?_]
    · simp
    · intro p hp
      have hne : p.1 ≠ e.1 := by
        intro hcontra
        exact hhead (hcontra ▸ List.mem_map_of_mem Prod.fst hp)
      rw [lookupKey_append_single_ne acc e.1 p.1 e.2 hne]
      exact hdisj p (List.mem_cons_of_mem _ hp)

lemma renderEntries_length_ge (d : List (String × String)) :
    d.length ≤ (renderEntries d).length := by
  induction d with
  | nil => simp [renderEntries]
  | cons e d' ih =>
    cases d' with
    | nil => simp [renderEntries, renderEntry, quoteStr]
    | cons e2 d'' =>
      rw [show renderEntries (e :: e2 :: d'') =
          renderEntry e ++ ',' :: ' ' :: renderEntries (e2 :: d'') from rfl]
      simp only [List.length_append, List.length_cons] at ih ⊢
      omega

lemma renderEntries_cons_expose (e : String × String) (d : List (String × String))
    (l : List Char) :
    ∃ t, renderEntries (e :: d) ++ l = '"' :: t := by
  cases d with
  | nil =>
    rw [show renderEntries [e] ++ l = quoteStr e.1 ++ (':' :: ' ' :: (quoteStr e.2 ++ l)) from by
      simp [renderEntries, renderEntry]]
    rw [quoteStr_head]
    exact ⟨_, rfl⟩
  | cons e2 d'' =>
    rw [show renderEntries (e :: e2 :: d'') ++ l =
        quoteStr e.1 ++ (':' :: ' ' ::
          (quoteStr e.2 ++ (',' :: ' ' :: (renderEntries (e2 :: d'') ++ l)))) from by
      simp [renderEntries, renderEntry]]
    rw [quoteStr_head]
    exact ⟨_, rfl⟩

lemma parseStrDict_render (d : List (String × String))
    (hnd : (d.map Prod.fst).Nodup) :
    parseStrDict (renderHashDb d) = some d := by
  cases d with
  | nil => rfl
  | cons e d' =>
    obtain ⟨t, ht⟩ := renderEntries_cons_expose e d' ['}']
    unfold parseStrDict
    rw [show (renderHashDb (e :: d')).data =
          '{' :: (renderEntries (e :: d') ++ ['}']) from rfl,
        skipWs_cons_not '{' _ (by decide)]
    show (match skipWs (renderEntries (e :: d') ++ ['}']) with
      | '}' :: r2 => if skipWs r2 = [] then some [] else none
      | r1 =>
        match parseMembers (r1.length + 1) r1 [] with
        | some (d2, r2) => if skipWs r2 = [] then some d2 else none
        | none => none) = some (e :: d')
    rw [ht, skipWs_cons_not '"' t (by decide)]
    show (match parseMembers (('"' :: t).length + 1) ('"' :: t) [] with
      | some (d2, r2) => if skipWs r2 = [] then some d2 else none
      | none => none) = some (e :: d')
    rw [← ht]
    have hlen : (renderEntries (e :: d') ++ ['}']).length + 1 =
        (e :: d').length + 1 +
          ((renderEntries (e :: d')).length + 1 - (e :: d').length) := by
      have := renderEntries_length_ge (e :: d')
      simp only [List.length_append, List.length_cons, List.length_nil] at this ⊢
      omega
    rw [show renderEntries (e :: d') ++ ['}'] =
          renderEntries (e :: d') ++ '}' :: [] from rfl] at hlen ⊢
    rw [hlen, parseMembers_roundtrip (e :: d') _ [] [] (by simp)]
    rw [foldl_dictInsert_append (e :: d') [] hnd (by intro p _; rfl)]
    rfl

/-- C3: persist and reload round-trip.  For every store state with the
dict-key invariant, every key and every value, add_hash followed by
update_hash_db writes a text serialization from which reconstruction
succeeds and yields the stored value for the key; the JSON string
codec round-trips arbitrary key and value strings exactly. -/
theorem persist_reload_roundtrip (s : State) (k v : String)
    (hnd : (s.db.hash_db.map Prod.fst).Nodup) :
    ∃ s2 : State,
      dbInit ((s.add_hash k v false).update_hash_db).files = Except.ok s2 ∧
      s2.db.get_hash k = some v := by
  have hnd' : ((dictInsert s.db.hash_db k v).map Prod.fst).Nodup :=
    dictInsert_keys_nodup _ k v hnd
  have hparse := parseStrDict_render _ hnd'
  refine ⟨⟨⟨(parseStrDict (renderHashDb (dictInsert s.db.hash_db k v))).getD [],
            (parseLocArray s.files.loc_file).getD [], s.db.phash_db⟩,
           ⟨renderHashDb (dictInsert s.db.hash_db k v), s.files.loc_file,
            PhashContent.valid s.db.phash_db⟩⟩, rfl, ?_⟩
  have hX : (parseStrDict (renderHashDb (dictInsert s.db.hash_db k v))).getD
      ([] : List (String × String)) = dictInsert s.db.hash_db k v := by
    rw [hparse]
    rfl
  simp [Db.get_hash, Db.check_hash, hX, lookupKey_dictInsert_self]

/-- Witness for C3 at an initially empty store with key abc and value
path1. -/
theorem persist_reload_roundtrip_witness :
    ((State.mk ⟨[], [], []⟩ ⟨"", "", PhashContent.empty⟩).db.hash_db.map
      Prod.fst).Nodup ∧
    ∃ s2 : State,
      dbInit (((State.mk ⟨[], [], []⟩ ⟨"", "", PhashContent.empty⟩).add_hash
          "abc" "path1" false).update_hash_db).files = Except.ok s2 ∧
      s2.db.get_hash "abc" = some "path1" :=
  ⟨by simp, persist_reload_roundtrip _ "abc" "path1" (by simp)⟩
